import Mathlib

/-!
Shallow embedding of the character-device base class `cdev::CDev`
(src/src/lib/cdev/CDev.cpp) and proofs about its poll-waiter registry,
notifier and open/close lifecycle.

Modelling conventions:
* Event masks (`pollevent_t`) are natural numbers used as bitsets with
  `&&&` (bitwise and) and `|||` (bitwise or).
* Error codes are integers with the values the source uses:
  `PX4_OK = 0`, `PX4_ERROR = -1`, `-EBADF = -9`, `-ENOMEM = -12`,
  `-EINVAL = -22`.
* A waiter record `px4_pollfd_struct_t` is a structure `PollFd`; the
  registry `_pollset` stores references (pointers) to such records, which
  we model as identifiers of type `Nat` resolved through a heap
  `Nat → PollFd`.  Pointer comparison (`fds == _pollset[i]`) becomes
  comparison of identifiers.
* The slot table `_pollset` is a `List (Option Nat)` whose entries are the
  initialised cells the code has written; `_max_pollwaiters` is kept as a
  separate field, exactly as in the source, and the fact that every index
  below `_max_pollwaiters` is an initialised cell (i.e. the list has length
  `_max_pollwaiters`) is proved as an invariant, not assumed.
* The wake semaphore of a waiter is modelled by its current count
  `semCount : Int` (the value `px4_sem_getvalue` reports; on platforms
  where the count is not queryable the source leaves the default `-1`,
  which is covered by the `≤ 0` case) together with a ghost counter
  `semPosts` recording how many times `px4_sem_post` was issued.
-/

namespace cdev

/-- Return code `PX4_OK`. -/
def PX4_OK : Int := 0

/-- Return code `PX4_ERROR`. -/
def PX4_ERROR : Int := -1

/-- Error `-EBADF`: close() called while not open. -/
def NEG_EBADF : Int := -9

/-- Error `-ENOMEM`: registry at maximum capacity (resource exhausted). -/
def NEG_ENOMEM : Int := -12

/-- Error `-EINVAL`: remove_poll_waiter found no matching slot (bad state). -/
def NEG_EINVAL : Int := -22

/-- One waiter record (`px4_pollfd_struct_t`): events-of-interest mask,
accumulated ready-events mask, the wake semaphore's current count, a ghost
count of posts issued to the semaphore, and the opaque session
back-reference `priv` set by poll setup. -/
structure PollFd where
  events : Nat
  revents : Nat
  semCount : Int
  semPosts : Nat
  priv : Option Nat := none
deriving Repr, DecidableEq

/-- Embedding of `px4_sem_post` on a waiter's wake semaphore: increments the count and
the ghost post counter. -/
def px4_sem_post (f : PollFd) : PollFd :=
  { f with semCount := f.semCount + 1, semPosts := f.semPosts + 1 }

/-- Registry state of a device: `_max_pollwaiters` and the slot table
`_pollset` (the list of initialised cells, each empty or holding a waiter
reference). -/
structure CDevPoll where
  max_pollwaiters : Nat
  pollset : List (Option Nat)
deriving Repr, DecidableEq

/-- The freshly-constructed registry: `_max_pollwaiters = 0`, no table. -/
def initialPoll : CDevPoll := ⟨0, []⟩

/-- The scan loop of `CDev::store_poll_waiter` (lines 332-340): walk the
slots in order; at the first empty slot store the reference and succeed;
if no slot is empty, report failure (`none`). -/
def store_scan (fds : Nat) : List (Option Nat) → Option (List (Option Nat))
  | [] => none
  | none :: rest => some (some fds :: rest)
  | some x :: rest => (store_scan fds rest).map (fun r => some x :: r)

/-- Embedding of `CDev::store_poll_waiter` (lines 324-365): first-fit store into an
empty slot; otherwise fail with `-ENOMEM` if `_max_pollwaiters >= 256/2`,
else grow the table to double capacity (1 when growing from 0), copying
the old cells, zero-filling the tail, and placing the new reference at
index `_max_pollwaiters` (the first new slot). Returns (ret, new state). -/
def store_poll_waiter (s : CDevPoll) (fds : Nat) : Int × CDevPoll :=
  match store_scan fds s.pollset with
  | some ps => (PX4_OK, ⟨s.max_pollwaiters, ps⟩)
  | none =>
    if 128 ≤ s.max_pollwaiters then
      (NEG_ENOMEM, s)
    else
      let new_count := if 0 < s.max_pollwaiters then s.max_pollwaiters * 2 else 1
      let new_pollset :=
        (s.pollset ++ List.replicate (new_count - s.max_pollwaiters) none).set
          s.max_pollwaiters (some fds)
      (PX4_OK, ⟨new_count, new_pollset⟩)

/-- The scan loop of `CDev::remove_poll_waiter` (lines 372-379): walk the
slots in order; at the first slot equal to the reference clear it and
succeed; if no slot matches, report failure (`none`). -/
def remove_scan (fds : Nat) : List (Option Nat) → Option (List (Option Nat))
  | [] => none
  | s :: rest =>
    if s = some fds then some (none :: rest)
    else (remove_scan fds rest).map (fun r => s :: r)

/-- Embedding of `CDev::remove_poll_waiter` (lines 367-383): clear the first slot
holding the reference and return `PX4_OK`; if none matches return
`-EINVAL`. Returns (ret, new state). -/
def remove_poll_waiter (s : CDevPoll) (fds : Nat) : Int × CDevPoll :=
  match remove_scan fds s.pollset with
  | some ps => (PX4_OK, ⟨s.max_pollwaiters, ps⟩)
  | none => (NEG_EINVAL, s)

/-- The waiter references held by the occupied slots, in slot order. -/
def occupants (s : CDevPoll) : List Nat :=
  s.pollset.filterMap (fun x => x)

/-- Embedding of `CDev::poll_notify_one` (lines 292-314): read the semaphore's current
count, OR `events-of-interest AND events` into the ready-events mask, and
post the semaphore iff the resulting mask is non-empty and the count read
was `≤ 0` (the non-queryable case leaves the default `-1`, also `≤ 0`). -/
def poll_notify_one (f : PollFd) (events : Nat) : PollFd :=
  let value := f.semCount
  let f' := { f with revents := f.revents ||| (f.events &&& events) }
  if f'.revents ≠ 0 ∧ value ≤ 0 then px4_sem_post f' else f'

/-- The loop of `CDev::poll_notify` (lines 283-287) over the slot table:
visit slots in order, skip empty ones, and apply `poll_notify_one` to the
record each occupied slot references. -/
def notify_fold (events : Nat) : List (Option Nat) → (Nat → PollFd) → (Nat → PollFd)
  | [], h => h
  | none :: rest, h => notify_fold events rest h
  | some id :: rest, h =>
      notify_fold events rest (Function.update h id (poll_notify_one (h id) events))

/-- Embedding of `CDev::poll_notify` (lines 275-290): broadcast `events` to every
occupied slot of the registry, in slot order, under the atomic section. -/
def poll_notify (s : CDevPoll) (h : Nat → PollFd) (events : Nat) : Nat → PollFd :=
  notify_fold events s.pollset h

/-- Embedding of `CDev::poll_state` (lines 316-322): the default device-state hook
reports no events. -/
def poll_state (filep : Nat) : Nat := 0

/-- Embedding of `CDev::poll` (lines 222-273). `fdsId` is the waiter reference, `f` the
record it points at, `filep` the session handle, `pollStateRet` the value
the (possibly overridden) `poll_state` hook returns for this session.
Setup: store `filep` into `fds->priv`, call `store_poll_waiter`; on
success OR `events AND poll_state` into `revents` and post the semaphore
if the result is non-empty. Teardown: call `remove_poll_waiter`.
Returns (ret, new registry, new waiter record). -/
def poll (s : CDevPoll) (fdsId : Nat) (f : PollFd) (filep : Nat)
    (pollStateRet : Nat) (setup : Bool) : Int × CDevPoll × PollFd :=
  if setup then
    let f1 := { f with priv := some filep }
    let r := store_poll_waiter s fdsId
    if r.1 = PX4_OK then
      let f2 := { f1 with revents := f1.revents ||| (f1.events &&& pollStateRet) }
      let f3 := if f2.revents ≠ 0 then px4_sem_post f2 else f2
      (r.1, r.2, f3)
    else
      (r.1, r.2, f1)
  else
    let r := remove_poll_waiter s fdsId
    (r.1, r.2, f)

/-- Embedding of `CDev::open_first` (lines 161-166): the default first-open hook is a
no-op success. -/
def open_first : Int := PX4_OK

/-- Embedding of `CDev::close_last` (lines 194-199): the default last-close hook is a
no-op success. -/
def close_last : Int := PX4_OK

/-- Embedding of `CDev::open` (lines 136-159). `hookRet` is what the (possibly
overridden) `open_first` hook returns when invoked. Increment the open
count; when it transitions to 1 invoke the hook, rolling the increment
back if the hook fails. Returns (ret, new open count, hook invoked?). -/
def CDev_open (open_count : Int) (hookRet : Int) : Int × Int × Bool :=
  let c := open_count + 1
  if c = 1 then
    if hookRet ≠ PX4_OK then (hookRet, c - 1, true) else (hookRet, c, true)
  else
    (PX4_OK, c, false)

/-- Embedding of `CDev::close` (lines 168-192). `hookRet` is what the (possibly
overridden) `close_last` hook returns when invoked. If the open count is
positive, decrement it and invoke the hook when the count reaches 0 (its
result is returned but the decrement stands); otherwise fail with
`-EBADF`. Returns (ret, new open count, hook invoked?). -/
def CDev_close (open_count : Int) (hookRet : Int) : Int × Int × Bool :=
  if 0 < open_count then
    let c := open_count - 1
    if c = 0 then (hookRet, c, true) else (PX4_OK, c, false)
  else
    (NEG_EBADF, open_count, false)

/-- Embedding of `CDev::init` (lines 117-131). `devname` is the device name
(`none` = null pointer), `registered` the current `_registered` flag,
`bindOk` the outcome of the external `register_driver` collaborator when
called. Returns (ret, new `_registered` flag, whether `register_driver`
was called). The source never consults `_registered` before binding. -/
def CDev_init (devname : Option String) (registered : Bool) (bindOk : Bool) :
    Int × Bool × Bool :=
  match devname with
  | some _ => if bindOk then (PX4_OK, true, true) else (PX4_ERROR, registered, true)
  | none => (PX4_ERROR, registered, false)

/-! ### Helper lemmas about the scan loops, growth and the notify fold -/

/-- Writing at the index right after a prefix replaces the head of the rest. -/
theorem set_append_length (l t : List (Option Nat)) (a b : Option Nat) :
    (l ++ a :: t).set l.length b = l ++ b :: t := by
  induction l with
  | nil => rfl
  | cons x xs ih => simpa using ih

/-- Variant of `set_append_length` with the index given by any expression equal to the
length of the prefix. -/
theorem set_append_length_eq (l t : List (Option Nat)) (a b : Option Nat)
    (n : Nat) (h : n = l.length) : (l ++ a :: t).set n b = l ++ b :: t := by
  rw [h, set_append_length]

/-- An empty slot contributes no occupant. -/
theorem filterMap_id_cons_none (rest : List (Option Nat)) :
    (none :: rest).filterMap (fun x => x) = rest.filterMap (fun x => x) := rfl

/-- An occupied slot contributes its reference as an occupant. -/
theorem filterMap_id_cons_some (j : Nat) (rest : List (Option Nat)) :
    (some j :: rest).filterMap (fun x => x) = j :: rest.filterMap (fun x => x) := rfl

/-- A run of empty slots contributes no occupants. -/
theorem filterMap_replicate_none (n : Nat) :
    (List.replicate n (none : Option Nat)).filterMap (fun x => x) = [] := by
  induction n with
  | zero => rfl
  | succ k ih => simpa [List.replicate] using ih

/-- The store scan preserves the number of slots. -/
theorem store_scan_length {fds : Nat} :
    ∀ {ps ps' : List (Option Nat)}, store_scan fds ps = some ps' →
      ps'.length = ps.length := by
  intro ps
  induction ps with
  | nil => intro ps' h; simp [store_scan] at h
  | cons x rest ih =>
    intro ps' h
    match x with
    | none =>
      simp [store_scan] at h
      subst h; simp
    | some y =>
      simp [store_scan] at h
      obtain ⟨r, hr, hps⟩ := h
      subst hps
      simp [ih hr]

/-- A successful store scan adds exactly the new occupant: the occupants of
the result are a permutation of the new reference consed onto the old
occupants. -/
theorem store_scan_perm {fds : Nat} :
    ∀ {ps ps' : List (Option Nat)}, store_scan fds ps = some ps' →
      (ps'.filterMap (fun x => x)).Perm (fds :: ps.filterMap (fun x => x)) := by
  intro ps
  induction ps with
  | nil => intro ps' h; simp [store_scan] at h
  | cons x rest ih =>
    intro ps' h
    match x with
    | none =>
      simp [store_scan] at h
      subst h; simp
    | some y =>
      simp [store_scan] at h
      obtain ⟨r, hr, hps⟩ := h
      subst hps
      rw [filterMap_id_cons_some, filterMap_id_cons_some]
      exact ((ih hr).cons y).trans (List.Perm.swap fds y _)

/-- The store scan fails exactly on tables with no empty slot. -/
theorem store_scan_eq_none {fds : Nat} {ps : List (Option Nat)}
    (h : ∀ x ∈ ps, x ≠ none) : store_scan fds ps = none := by
  induction ps with
  | nil => rfl
  | cons x rest ih =>
    match x with
    | none => exact absurd rfl (h none (by simp))
    | some y =>
      simp [store_scan, ih (fun z hz => h z (by simp [hz]))]

/-- If some slot is empty, the store scan succeeds. -/
theorem store_scan_isSome {fds : Nat} {ps : List (Option Nat)}
    (h : ∃ x ∈ ps, x = none) : ∃ ps', store_scan fds ps = some ps' := by
  induction ps with
  | nil => simp at h
  | cons x rest ih =>
    match x with
    | none => exact ⟨some fds :: rest, rfl⟩
    | some y =>
      obtain ⟨z, hz, hzn⟩ := h
      rcases List.mem_cons.mp hz with hz | hz
      · subst hzn; cases hz
      · obtain ⟨r, hr⟩ := ih ⟨z, hz, hzn⟩
        exact ⟨some y :: r, by simp [store_scan, hr]⟩

/-- The store scan stores into the first empty slot: if index `i` holds an
empty slot and every earlier index holds an occupied one, the result is the
table with slot `i` set to the new reference. -/
theorem store_scan_of_first {fds : Nat} :
    ∀ {ps : List (Option Nat)} {i : Nat}, ps[i]? = some none →
      (∀ j, j < i → ps[j]? ≠ some none) →
      store_scan fds ps = some (ps.set i (some fds)) := by
  intro ps
  induction ps with
  | nil => intro i h _; simp at h
  | cons x rest ih =>
    intro i h hfirst
    match i with
    | 0 =>
      simp at h
      subst h
      rfl
    | k + 1 =>
      have hx : x ≠ none := by
        intro hx
        exact hfirst 0 (Nat.succ_pos k) (by simp [hx])
      match x with
      | some y =>
        have hk : rest[k]? = some none := by simpa using h
        have hf : ∀ j, j < k → rest[j]? ≠ some none := by
          intro j hj
          have := hfirst (j + 1) (Nat.succ_lt_succ hj)
          simpa using this
        simp [store_scan, ih hk hf]

/-- The remove scan preserves the number of slots. -/
theorem remove_scan_length {fds : Nat} :
    ∀ {ps ps' : List (Option Nat)}, remove_scan fds ps = some ps' →
      ps'.length = ps.length := by
  intro ps
  induction ps with
  | nil => intro ps' h; simp [remove_scan] at h
  | cons x rest ih =>
    intro ps' h
    by_cases hx : x = some fds
    · subst hx
      simp [remove_scan] at h
      subst h; simp
    · simp [remove_scan, hx] at h
      obtain ⟨r, hr, hps⟩ := h
      subst hps
      simp [ih hr]

/-- A successful remove scan deletes exactly one occurrence of the
reference: the old occupants are a permutation of the reference consed onto
the new occupants. -/
theorem remove_scan_perm {fds : Nat} :
    ∀ {ps ps' : List (Option Nat)}, remove_scan fds ps = some ps' →
      (ps.filterMap (fun x => x)).Perm (fds :: ps'.filterMap (fun x => x)) := by
  intro ps
  induction ps with
  | nil => intro ps' h; simp [remove_scan] at h
  | cons x rest ih =>
    intro ps' h
    by_cases hx : x = some fds
    · subst hx
      simp [remove_scan] at h
      subst h; simp
    · simp [remove_scan, hx] at h
      obtain ⟨r, hr, hps⟩ := h
      subst hps
      match x with
      | none =>
        rw [filterMap_id_cons_none, filterMap_id_cons_none]
        exact ih hr
      | some y =>
        rw [filterMap_id_cons_some, filterMap_id_cons_some]
        exact ((ih hr).cons y).trans (List.Perm.swap fds y _)

/-- The remove scan fails exactly on tables with no matching slot. -/
theorem remove_scan_eq_none {fds : Nat} {ps : List (Option Nat)}
    (h : ∀ x ∈ ps, x ≠ some fds) : remove_scan fds ps = none := by
  induction ps with
  | nil => rfl
  | cons x rest ih =>
    have hx : x ≠ some fds := h x (by simp)
    simp [remove_scan, hx, ih (fun z hz => h z (by simp [hz]))]

/-- The remove scan clears the first matching slot: if index `i` holds the
reference and no earlier index does, the result is the table with slot `i`
cleared. -/
theorem remove_scan_of_first {fds : Nat} :
    ∀ {ps : List (Option Nat)} {i : Nat}, ps[i]? = some (some fds) →
      (∀ j, j < i → ps[j]? ≠ some (some fds)) →
      remove_scan fds ps = some (ps.set i none) := by
  intro ps
  induction ps with
  | nil => intro i h _; simp at h
  | cons x rest ih =>
    intro i h hfirst
    match i with
    | 0 =>
      simp at h
      subst h
      simp [remove_scan]
    | k + 1 =>
      have hx : x ≠ some fds := by
        intro hx
        exact hfirst 0 (Nat.succ_pos k) (by simp [hx])
      have hk : rest[k]? = some (some fds) := by simpa using h
      have hf : ∀ j, j < k → rest[j]? ≠ some (some fds) := by
        intro j hj
        have := hfirst (j + 1) (Nat.succ_lt_succ hj)
        simpa using this
      simp [remove_scan, hx, ih hk hf]

/-- Writing the new reference right after a fully-copied prefix turns the
grown table into prefix ++ reference ++ zero-filled tail. -/
theorem grow_set_eq {ps : List (Option Nat)} {cap nc : Nat} (f : Nat)
    (hlen : ps.length = cap) (h1 : cap < nc) :
    (ps ++ List.replicate (nc - cap) none).set cap (some f)
      = ps ++ some f :: List.replicate (nc - cap - 1) none := by
  obtain ⟨d, hd⟩ : ∃ d, nc - cap = d + 1 := ⟨nc - cap - 1, by omega⟩
  rw [hd, List.replicate_succ, set_append_length_eq _ _ _ _ _ hlen.symm]
  have hde : d = nc - cap - 1 := by omega
  rw [hde]
  simp

/-- Waiters referenced by no occupied slot are untouched by the notify
loop. -/
theorem notify_fold_not_mem {ev : Nat} :
    ∀ {ps : List (Option Nat)} {h : Nat → PollFd} {id : Nat},
      id ∉ ps.filterMap (fun x => x) → notify_fold ev ps h id = h id := by
  intro ps
  induction ps with
  | nil => intro h id _; rfl
  | cons x rest ih =>
    intro h id hid
    match x with
    | none => exact ih (by simpa using hid)
    | some j =>
      rw [filterMap_id_cons_some, List.mem_cons, not_or] at hid
      have := @ih (Function.update h j (poll_notify_one (h j) ev)) id hid.2
      rw [notify_fold, this, Function.update_noteq hid.1]

/-- When a reference occupies a slot and the occupants are pairwise
distinct, the notify loop rewrites its record by exactly one
`poll_notify_one`. -/
theorem notify_fold_mem_nodup {ev : Nat} :
    ∀ {ps : List (Option Nat)} {h : Nat → PollFd} {id : Nat},
      (ps.filterMap (fun x => x)).Nodup → id ∈ ps.filterMap (fun x => x) →
      notify_fold ev ps h id = poll_notify_one (h id) ev := by
  intro ps
  induction ps with
  | nil => intro h id _ hm; simp at hm
  | cons x rest ih =>
    intro h id hnd hm
    match x with
    | none =>
      rw [filterMap_id_cons_none] at hnd hm
      exact ih hnd hm
    | some j =>
      rw [filterMap_id_cons_some] at hnd hm
      have hnd' := List.nodup_cons.mp hnd
      rcases List.mem_cons.mp hm with hm | hm
      · subst hm
        rw [notify_fold, notify_fold_not_mem hnd'.1, Function.update_same]
      · have hne : id ≠ j := fun he => hnd'.1 (he ▸ hm)
        rw [notify_fold, ih hnd'.2 hm, Function.update_noteq hne]

/-- A bitwise OR is empty iff both operands are. -/
theorem lor_eq_zero {a b : Nat} (h : a ||| b = 0) : a = 0 ∧ b = 0 := by
  constructor <;>
    refine Nat.zero_of_testBit_eq_false fun i => ?_ <;>
      have hh := congrArg (fun n => n.testBit i) h <;>
        simp [Nat.testBit_or] at hh
  · exact hh.1
  · exact hh.2

/-! ### Claim theorems -/

/-- Claim C1: every call to `poll_notify` with event mask `m` visits every
occupied slot (skipping empty ones): a waiter referenced by an occupied
slot (occupants pairwise distinct) has its record rewritten by exactly one
`poll_notify_one`, whose effect is: the ready-events mask becomes its old
value OR-ed with `events-of-interest AND m`, and the wake signal is posted
exactly once iff the resulting mask is non-empty and the queried count is
`≤ 0` (the not-queryable case leaves the default `-1`, also `≤ 0`).
References in no occupied slot are untouched; with zero occupied slots the
call changes nothing (and, being total, does not crash). -/
theorem poll_notify_spec (s : CDevPoll) (h : Nat → PollFd) (m : Nat) :
    (∀ id, (occupants s).Nodup → id ∈ occupants s →
      poll_notify s h m id = poll_notify_one (h id) m) ∧
    (∀ id, id ∉ occupants s → poll_notify s h m id = h id) ∧
    (occupants s = [] → ∀ id, poll_notify s h m id = h id) ∧
    (∀ f : PollFd,
      (poll_notify_one f m).revents = f.revents ||| (f.events &&& m) ∧
      (poll_notify_one f m).semPosts = f.semPosts +
        (if (f.revents ||| (f.events &&& m)) ≠ 0 ∧ f.semCount ≤ 0 then 1 else 0)) := by
  refine ⟨?_, ?_, ?_, ?_⟩
  · intro id hnd hm
    exact notify_fold_mem_nodup hnd hm
  · intro id hid
    exact notify_fold_not_mem hid
  · intro hocc id
    exact notify_fold_not_mem (by rw [occupants] at hocc; rw [hocc]; exact List.not_mem_nil id)
  · intro f
    by_cases hc : (f.revents ||| (f.events &&& m)) ≠ 0 ∧ f.semCount ≤ 0 <;>
      simp [poll_notify_one, px4_sem_post, hc]

/-- Witness for C1 on a one-slot registry. -/
theorem poll_notify_spec_witness :
    poll_notify ⟨1, [some 5]⟩ (fun _ => ⟨1, 0, 0, 0, none⟩) 1 5
      = poll_notify_one ⟨1, 0, 0, 0, none⟩ 1 := by
  have h := poll_notify_spec ⟨1, [some 5]⟩ (fun _ => ⟨1, 0, 0, 0, none⟩) 1
  exact h.1 5 (by decide) (by decide)

/-- Claim C2: `poll` with `setup = true` stores the session handle into the
waiter record (whatever `store_poll_waiter`'s outcome), returns
`store_poll_waiter`'s outcome (in particular `-ENOMEM` when the registry is
full at maximum capacity), and on success ORs
`events-of-interest AND poll_state` into the ready-events mask, posting the
wake signal before returning iff the resulting mask is non-empty. The
default `poll_state` reports no events. -/
theorem poll_setup_spec (s : CDevPoll) (fdsId : Nat) (f : PollFd)
    (filep pollStateRet : Nat) :
    (poll s fdsId f filep pollStateRet true).1 = (store_poll_waiter s fdsId).1 ∧
    (poll s fdsId f filep pollStateRet true).2.1 = (store_poll_waiter s fdsId).2 ∧
    (poll s fdsId f filep pollStateRet true).2.2.priv = some filep ∧
    ((store_poll_waiter s fdsId).1 = PX4_OK →
      (poll s fdsId f filep pollStateRet true).2.2.revents
        = f.revents ||| (f.events &&& pollStateRet) ∧
      ((f.revents ||| (f.events &&& pollStateRet)) ≠ 0 →
        (poll s fdsId f filep pollStateRet true).2.2.semPosts = f.semPosts + 1) ∧
      ((f.revents ||| (f.events &&& pollStateRet)) = 0 →
        (poll s fdsId f filep pollStateRet true).2.2 = { f with priv := some filep })) ∧
    ((store_poll_waiter s fdsId).1 ≠ PX4_OK →
      (poll s fdsId f filep pollStateRet true).2.2 = { f with priv := some filep }) ∧
    ((∀ x ∈ s.pollset, x ≠ none) → 128 ≤ s.max_pollwaiters →
      (poll s fdsId f filep pollStateRet true).1 = NEG_ENOMEM) ∧
    poll_state filep = 0 := by
  have h1 : (poll s fdsId f filep pollStateRet true).1 = (store_poll_waiter s fdsId).1 := by
    by_cases hok : (store_poll_waiter s fdsId).1 = PX4_OK <;> simp [poll, hok]
  have h2 : (poll s fdsId f filep pollStateRet true).2.1 = (store_poll_waiter s fdsId).2 := by
    by_cases hok : (store_poll_waiter s fdsId).1 = PX4_OK <;> simp [poll, hok]
  have h3 : (poll s fdsId f filep pollStateRet true).2.2.priv = some filep := by
    by_cases hok : (store_poll_waiter s fdsId).1 = PX4_OK
    · by_cases hre : (f.revents ||| (f.events &&& pollStateRet)) = 0 <;>
        simp [poll, px4_sem_post, hok, hre]
    · simp [poll, hok]
  have h4 : (store_poll_waiter s fdsId).1 = PX4_OK →
      (poll s fdsId f filep pollStateRet true).2.2.revents
        = f.revents ||| (f.events &&& pollStateRet) ∧
      ((f.revents ||| (f.events &&& pollStateRet)) ≠ 0 →
        (poll s fdsId f filep pollStateRet true).2.2.semPosts = f.semPosts + 1) ∧
      ((f.revents ||| (f.events &&& pollStateRet)) = 0 →
        (poll s fdsId f filep pollStateRet true).2.2 = { f with priv := some filep }) := by
    intro hok
    by_cases hre : (f.revents ||| (f.events &&& pollStateRet)) = 0
    · obtain ⟨hr0, he0⟩ := lor_eq_zero hre
      refine ⟨?_, ?_, ?_⟩ <;> simp [poll, px4_sem_post, hok, hre, hr0, he0]
    · refine ⟨?_, ?_, ?_⟩ <;> simp [poll, px4_sem_post, hok, hre]
  have h5 : (store_poll_waiter s fdsId).1 ≠ PX4_OK →
      (poll s fdsId f filep pollStateRet true).2.2 = { f with priv := some filep } := by
    intro hok
    simp [poll, hok]
  have h6 : (∀ x ∈ s.pollset, x ≠ none) → 128 ≤ s.max_pollwaiters →
      (poll s fdsId f filep pollStateRet true).1 = NEG_ENOMEM := by
    intro hfull h128
    have hret : (store_poll_waiter s fdsId).1 = NEG_ENOMEM := by
      rw [store_poll_waiter, store_scan_eq_none hfull, if_pos h128]
    rw [h1, hret]
  exact ⟨h1, h2, h3, h4, h5, h6, rfl⟩

/-- Witness for C2: setup on the empty registry with no current events. -/
theorem poll_setup_spec_witness :
    (poll initialPoll 0 ⟨1, 0, 0, 0, none⟩ 9 0 true).2.2
      = { events := 1, revents := 0, semCount := 0, semPosts := 0, priv := some 9 } := by
  have h := poll_setup_spec initialPoll 0 ⟨1, 0, 0, 0, none⟩ 9 0
  exact (h.2.2.2.1 (by decide)).2.2 (by decide)

/-- Claim C3: `store_poll_waiter` stores into the first empty slot below
capacity when one exists (returning `PX4_OK`, capacity and other slots
unchanged); fails with `-ENOMEM` leaving everything unchanged when all
slots are occupied and capacity is at the fixed maximum 128; otherwise
doubles capacity (to 1 from 0), keeps every occupied slot at its index,
leaves every new slot empty except the first new slot (index = old
capacity), which receives the reference, and returns `PX4_OK`. The
hypothesis `hlen` is the registry well-formedness invariant (established
from the initial state in the C10 theorem). -/
theorem store_poll_waiter_spec (s : CDevPoll) (fds : Nat)
    (hlen : s.pollset.length = s.max_pollwaiters) :
    ((∃ x ∈ s.pollset, x = none) →
      (store_poll_waiter s fds).1 = PX4_OK ∧
      (store_poll_waiter s fds).2.max_pollwaiters = s.max_pollwaiters) ∧
    (∀ i, s.pollset[i]? = some none →
      (∀ j, j < i → s.pollset[j]? ≠ some none) →
      store_poll_waiter s fds
        = (PX4_OK, ⟨s.max_pollwaiters, s.pollset.set i (some fds)⟩)) ∧
    ((∀ x ∈ s.pollset, x ≠ none) → 128 ≤ s.max_pollwaiters →
      store_poll_waiter s fds = (NEG_ENOMEM, s)) ∧
    ((∀ x ∈ s.pollset, x ≠ none) → s.max_pollwaiters < 128 →
      store_poll_waiter s fds =
        (PX4_OK,
          ⟨(if 0 < s.max_pollwaiters then s.max_pollwaiters * 2 else 1),
            s.pollset ++ some fds :: List.replicate
              ((if 0 < s.max_pollwaiters then s.max_pollwaiters * 2 else 1)
                - s.max_pollwaiters - 1) none⟩)) := by
  refine ⟨?_, ?_, ?_, ?_⟩
  · intro hex
    obtain ⟨ps', hps⟩ := store_scan_isSome hex
    rw [store_poll_waiter, hps]
    exact ⟨rfl, rfl⟩
  · intro i h1 h2
    rw [store_poll_waiter, store_scan_of_first h1 h2]
  · intro hfull h128
    rw [store_poll_waiter, store_scan_eq_none hfull, if_pos h128]
  · intro hfull hlt
    rw [store_poll_waiter, store_scan_eq_none hfull, if_neg (by omega)]
    dsimp only
    rw [grow_set_eq fds hlen
      (by by_cases hm : 0 < s.max_pollwaiters <;> simp [hm] <;> omega)]

/-- Witness for C3: growing the empty registry to capacity 1. -/
theorem store_poll_waiter_spec_witness :
    store_poll_waiter initialPoll 4
      = (PX4_OK, (⟨1, [some 4]⟩ : CDevPoll)) := by
  have h := store_poll_waiter_spec initialPoll 4 rfl
  have h4 := h.2.2.2 (by intro x hx; simp [initialPoll] at hx) (by decide)
  exact h4

/-- Claim C4: `CDev::open` increments the open count; the first-open hook
runs iff the count transitions 0→1; a failing hook rolls the increment
back (count returns to its pre-call value) and its error is returned;
otherwise `PX4_OK` is returned. The default hook is a no-op success. -/
theorem open_spec (c r : Int) :
    ((CDev_open c r).2.2 = true ↔ c = 0) ∧
    (c = 0 → r ≠ PX4_OK → CDev_open c r = (r, c, true)) ∧
    (c = 0 → r = PX4_OK → CDev_open c r = (r, c + 1, true)) ∧
    (c ≠ 0 → CDev_open c r = (PX4_OK, c + 1, false)) ∧
    open_first = PX4_OK := by
  unfold CDev_open open_first
  by_cases hc : c = 0
  · subst hc
    by_cases hr : r = PX4_OK <;> simp [hr]
  · have h1 : ¬(c + 1 = 1) := by omega
    simp [h1, hc]

/-- Witness for C4: a failing first-open hook is rolled back. -/
theorem open_spec_witness : CDev_open 0 (-5) = (-5, 0, true) := by
  have h := open_spec 0 (-5)
  exact h.2.1 rfl (by decide)

/-- Claim C5: `CDev::close` with open count 0 fails with `-EBADF` and
mutates nothing; otherwise it decrements the count, and iff the count
reaches 0 the last-close hook runs, its result surfaced as the return
value while the decrement stands. The default hook is a no-op success. -/
theorem close_spec (c r : Int) :
    (c = 0 → CDev_close c r = (NEG_EBADF, c, false)) ∧
    (c = 1 → CDev_close c r = (r, 0, true)) ∧
    (1 < c → CDev_close c r = (PX4_OK, c - 1, false)) ∧
    ((CDev_close c r).2.2 = true ↔ (0 < c ∧ c - 1 = 0)) ∧
    close_last = PX4_OK := by
  unfold CDev_close close_last
  refine ⟨?_, ?_, ?_, ?_, rfl⟩
  · intro h
    subst h
    norm_num
  · intro h
    subst h
    norm_num
  · intro h
    have h0 : 0 < c := by omega
    have h1 : ¬(c - 1 = 0) := by omega
    simp [h0, h1]
  · by_cases h0 : 0 < c
    · by_cases h1 : c - 1 = 0 <;> simp [h0, h1]
    · simp [h0]

/-- Witness for C5: a failing last-close hook cannot veto the close. -/
theorem close_spec_witness : CDev_close 1 (-7) = (-7, 0, true) :=
  (close_spec 1 (-7)).2.1 rfl

/-- Claim C7: `remove_poll_waiter` clears the first slot equal to the
reference and returns `PX4_OK`, leaving capacity and all other slots
unchanged; if no slot matches it returns `-EINVAL` and leaves capacity and
every slot unchanged. -/
theorem remove_poll_waiter_spec (s : CDevPoll) (fds : Nat) :
    (∀ i, s.pollset[i]? = some (some fds) →
      (∀ j, j < i → s.pollset[j]? ≠ some (some fds)) →
      remove_poll_waiter s fds
        = (PX4_OK, ⟨s.max_pollwaiters, s.pollset.set i none⟩)) ∧
    ((∀ x ∈ s.pollset, x ≠ some fds) →
      remove_poll_waiter s fds = (NEG_EINVAL, s)) := by
  constructor
  · intro i h1 h2
    rw [remove_poll_waiter, remove_scan_of_first h1 h2]
  · intro hno
    rw [remove_poll_waiter, remove_scan_eq_none hno]

/-- Witness for C7: removing a never-registered reference fails and leaves
the registry untouched. -/
theorem remove_poll_waiter_spec_witness :
    remove_poll_waiter ⟨2, [some 3, some 4]⟩ 9
      = (NEG_EINVAL, (⟨2, [some 3, some 4]⟩ : CDevPoll)) := by
  have h := remove_poll_waiter_spec ⟨2, [some 3, some 4]⟩ 9
  exact h.2 (by decide)

/-- Claim C8 counterexample: a registered waiter whose events-of-interest
mask (2) is disjoint from the notified mask (1) still gets its wake signal
posted by `poll_notify` when its prior ready-events mask is non-empty and
the semaphore count is 0 — refuting "does not post the waiter's wake
signal regardless of the waiter's prior ready-events or wake-signal
state". -/
theorem notify_disjoint_counterexample :
    (2 : Nat) &&& 1 = 0 ∧
    (poll_notify ⟨1, [some 0]⟩ (fun _ => ⟨2, 2, 0, 0, none⟩) 1 0).semPosts = 1 := by
  constructor
  · rfl
  · rfl

/-- Claim C8 (amended): for a waiter whose events-of-interest mask is
disjoint from the notified mask, `poll_notify_one` leaves the ready-events
mask unchanged, and posts the wake signal iff the prior ready-events mask
was already non-empty and the queried count is `≤ 0`; in particular a
waiter with empty prior ready-events mask is fully untouched. -/
theorem poll_notify_one_disjoint_spec (f : PollFd) (m : Nat)
    (h : f.events &&& m = 0) :
    (poll_notify_one f m).revents = f.revents ∧
    (poll_notify_one f m).semPosts
      = f.semPosts + (if f.revents ≠ 0 ∧ f.semCount ≤ 0 then 1 else 0) ∧
    (f.revents = 0 → poll_notify_one f m = f) := by
  obtain ⟨e, rv, sc, sp, pv⟩ := f
  by_cases hr : rv = 0
  · subst hr
    simp [poll_notify_one, px4_sem_post, h]
  · by_cases hs : sc ≤ 0 <;>
      simp [poll_notify_one, px4_sem_post, h, hr, hs]

/-- Witness for C8 (amended): a quiescent waiter is untouched. -/
theorem poll_notify_one_disjoint_spec_witness :
    poll_notify_one ⟨2, 0, 0, 0, none⟩ 1 = ⟨2, 0, 0, 0, none⟩ := by
  have h := poll_notify_one_disjoint_spec ⟨2, 0, 0, 0, none⟩ 1 (by decide)
  exact h.2.2 rfl

/-- Claim C9 counterexample: with the registration flag already set and a
non-null device name, a further `init()` call still invokes the external
`register_driver` bind — refuting "a further init() call does not bind the
name to the namespace again". -/
theorem init_rebind_counterexample :
    ¬((CDev_init (some "dev") true true).2.2 = false) := by
  decide

/-- Claim C9 (amended): `init()` with a non-null name and a successful bind
sets the registration flag and returns `PX4_OK`; with a null name or a
failing bind it returns `PX4_ERROR` and leaves the flag unchanged; and it
attempts the bind whenever the name is non-null, regardless of whether the
flag is already set (the source never consults the flag before binding). -/
theorem init_spec (nm : String) (registered bindOk : Bool) :
    (bindOk = true → CDev_init (some nm) registered bindOk = (PX4_OK, true, true)) ∧
    (bindOk = false →
      CDev_init (some nm) registered bindOk = (PX4_ERROR, registered, true)) ∧
    CDev_init none registered bindOk = (PX4_ERROR, registered, false) := by
  unfold CDev_init
  refine ⟨?_, ?_, rfl⟩ <;> intro h <;> subst h <;> simp

/-- Witness for C9 (amended): a successful first bind. -/
theorem init_spec_witness :
    CDev_init (some "dev") false true = (PX4_OK, true, true) :=
  (init_spec "dev" false true).1 rfl

/-! ### Lifecycle traces (for C6) -/

/-- One lifecycle call: `open()` or `close()`, tagged with the value the
overridable hook (`open_first` resp. `close_last`) would return if
invoked during that call. -/
inductive LCOp where
  | lc_open (hookRet : Int)
  | lc_close (hookRet : Int)
deriving Repr, DecidableEq

/-- Whether a lifecycle call is an `open()`. -/
def LCOp.isOpenOp : LCOp → Bool
  | .lc_open _ => true
  | .lc_close _ => false

/-- One observed lifecycle step: the open count before and after the call
and whether each hook was invoked during it. -/
structure LCEntry where
  pre : Int
  op : LCOp
  post : Int
  firstInvoked : Bool
  lastInvoked : Bool
deriving Repr, DecidableEq

/-- Execute one lifecycle call on open count `c`. -/
def lcStep (c : Int) : LCOp → LCEntry
  | .lc_open r => ⟨c, .lc_open r, (CDev_open c r).2.1, (CDev_open c r).2.2, false⟩
  | .lc_close r => ⟨c, .lc_close r, (CDev_close c r).2.1, false, (CDev_close c r).2.2⟩

/-- Execute a sequence of lifecycle calls, recording every step. -/
def lcTrace (c : Int) : List LCOp → List LCEntry
  | [] => []
  | op :: rest => lcStep c op :: lcTrace (lcStep c op).post rest

/-- A lifecycle step started at a non-negative count ends at one. -/
theorem lcStep_post_nonneg {c : Int} (hc : 0 ≤ c) (op : LCOp) :
    0 ≤ (lcStep c op).post := by
  cases op with
  | lc_open r =>
    show 0 ≤ (CDev_open c r).2.1
    unfold CDev_open
    by_cases h1 : c + 1 = 1
    · by_cases hr : r ≠ PX4_OK <;> simp [h1, hr] <;> omega
    · simp [h1]; omega
  | lc_close r =>
    show 0 ≤ (CDev_close c r).2.1
    unfold CDev_close
    by_cases h0 : 0 < c
    · by_cases h1 : c - 1 = 0 <;> simp [h0, h1] <;> omega
    · simp [h0]; omega

/-- A lifecycle step invokes the first-open hook iff it is an `open()`
from count 0, and the last-close hook iff it is a `close()` from count 1. -/
theorem lcStep_invoked_iff (c : Int) (op : LCOp) :
    ((lcStep c op).firstInvoked = true ↔ (op.isOpenOp = true ∧ c = 0)) ∧
    ((lcStep c op).lastInvoked = true ↔ (op.isOpenOp = false ∧ c = 1)) := by
  cases op with
  | lc_open r =>
    constructor
    · show (CDev_open c r).2.2 = true ↔ _
      unfold CDev_open
      by_cases h1 : c + 1 = 1
      · by_cases hr : r ≠ PX4_OK <;> simp [h1, hr, LCOp.isOpenOp] <;> omega
      · simp [h1, LCOp.isOpenOp]; omega
    · simp [lcStep, LCOp.isOpenOp]
  | lc_close r =>
    constructor
    · simp [lcStep, LCOp.isOpenOp]
    · show (CDev_close c r).2.2 = true ↔ _
      unfold CDev_close
      by_cases h0 : 0 < c
      · by_cases h1 : c - 1 = 0 <;> simp [h0, h1, LCOp.isOpenOp] <;> omega
      · simp [h0, LCOp.isOpenOp]; omega

/-- Claim C6: along every finite sequence of `open()`/`close()` calls
starting from open count 0, the count never goes negative, and the
first-open hook is invoked in exactly those steps that are an `open()`
crossing 0→1 while the last-close hook is invoked in exactly those steps
that are a `close()` crossing 1→0 — never on a count change that does not
cross the boundary. -/
theorem lifecycle_trace_spec (ops : List LCOp) :
    ∀ e ∈ lcTrace 0 ops,
      0 ≤ e.pre ∧ 0 ≤ e.post ∧
      (e.firstInvoked = true ↔ (e.op.isOpenOp = true ∧ e.pre = 0)) ∧
      (e.lastInvoked = true ↔ (e.op.isOpenOp = false ∧ e.pre = 1)) := by
  have main : ∀ (l : List LCOp) (c : Int), 0 ≤ c →
      ∀ e ∈ lcTrace c l,
        0 ≤ e.pre ∧ 0 ≤ e.post ∧
        (e.firstInvoked = true ↔ (e.op.isOpenOp = true ∧ e.pre = 0)) ∧
        (e.lastInvoked = true ↔ (e.op.isOpenOp = false ∧ e.pre = 1)) := by
    intro l
    induction l with
    | nil => intro c _ e he; simp [lcTrace] at he
    | cons op rest ih =>
      intro c hc e he
      rcases List.mem_cons.mp he with he | he
      · subst he
        have hpre : (lcStep c op).pre = c := by cases op <;> rfl
        have hop : (lcStep c op).op = op := by cases op <;> rfl
        refine ⟨by rw [hpre]; exact hc, lcStep_post_nonneg hc op, ?_, ?_⟩
        · rw [hpre, hop]; exact (lcStep_invoked_iff c op).1
        · rw [hpre, hop]; exact (lcStep_invoked_iff c op).2
      · exact ih (lcStep c op).post (lcStep_post_nonneg hc op) e he
  exact main ops 0 le_rfl

/-- Witness for C6 on the one-step trace `[open]`. -/
theorem lifecycle_trace_spec_witness :
    0 ≤ (lcStep 0 (LCOp.lc_open 0)).post := by
  have h := lifecycle_trace_spec [LCOp.lc_open 0]
  exact (h (lcStep 0 (LCOp.lc_open 0)) (List.mem_cons_self _ _)).2.1

/-! ### Registry traces (for C10) -/

/-- One registry operation issued under the Lock: registering or removing
a waiter reference. -/
inductive RegOp where
  | addw (fds : Nat)
  | removew (fds : Nat)
deriving Repr, DecidableEq

/-- Execute one registry operation (keeping the resulting state). -/
def regStep (s : CDevPoll) : RegOp → CDevPoll
  | .addw f => (store_poll_waiter s f).2
  | .removew f => (remove_poll_waiter s f).2

/-- Execute a sequence of registry operations. -/
def regRun (s : CDevPoll) : List RegOp → CDevPoll
  | [] => s
  | op :: rest => regRun (regStep s op) rest

/-- The ghost list of live references: a successful add appends its
reference, a successful remove erases it. -/
def liveUpd (s : CDevPoll) (L : List Nat) : RegOp → List Nat
  | .addw f => if (store_poll_waiter s f).1 = PX4_OK then L ++ [f] else L
  | .removew f => if (remove_poll_waiter s f).1 = PX4_OK then L.erase f else L

/-- The ghost live list after a sequence of registry operations. -/
def liveRun (s : CDevPoll) (L : List Nat) : List RegOp → List Nat
  | [] => L
  | op :: rest => liveRun (regStep s op) (liveUpd s L op) rest

/-- The usage contract of §4.3 of the design: a reference is only added
while not currently registered (removing an absent reference is allowed:
it is the reported `BadState` scenario). -/
def ValidOps (s : CDevPoll) : List RegOp → Prop
  | [] => True
  | .addw f :: rest => f ∉ occupants s ∧ ValidOps (regStep s (.addw f)) rest
  | .removew f :: rest => ValidOps (regStep s (.removew f)) rest

/-- Registry well-formedness tied to the ghost live list: every index
below capacity is an initialised cell, occupants are pairwise distinct,
and the occupants are exactly the live references. -/
def RegInv (s : CDevPoll) (L : List Nat) : Prop :=
  s.pollset.length = s.max_pollwaiters ∧ (occupants s).Nodup ∧ L.Nodup ∧
    (∀ r, r ∈ occupants s ↔ r ∈ L)

/-- Inserting a fresh element preserves distinctness and the
occupants-equal-live correspondence. -/
theorem occ_insert_inv {occ2 occS L : List Nat} {f : Nat}
    (hperm : occ2.Perm (f :: occS)) (hnd : occS.Nodup) (hf : f ∉ occS)
    (hLnd : L.Nodup) (hfL : f ∉ L) (hmem : ∀ r, r ∈ occS ↔ r ∈ L) :
    occ2.Nodup ∧ (L ++ [f]).Nodup ∧ (∀ r, r ∈ occ2 ↔ r ∈ L ++ [f]) := by
  refine ⟨hperm.nodup_iff.mpr (List.nodup_cons.mpr ⟨hf, hnd⟩), ?_, ?_⟩
  · exact (List.perm_append_singleton f L).nodup_iff.mpr
      (List.nodup_cons.mpr ⟨hfL, hLnd⟩)
  · intro r
    constructor
    · intro hr
      rcases List.mem_cons.mp (hperm.mem_iff.mp hr) with h | h
      · exact List.mem_append.mpr (Or.inr (by simp [h]))
      · exact List.mem_append.mpr (Or.inl ((hmem r).mp h))
    · intro hr
      rcases List.mem_append.mp hr with h | h
      · exact hperm.mem_iff.mpr (List.mem_cons.mpr (Or.inr ((hmem r).mpr h)))
      · exact hperm.mem_iff.mpr (List.mem_cons.mpr (Or.inl (by simpa using h)))

/-- Deleting one occurrence preserves distinctness and the
occupants-equal-live correspondence. -/
theorem occ_erase_inv {occS occ2 L : List Nat} {f : Nat}
    (hperm : occS.Perm (f :: occ2)) (hnd : occS.Nodup) (hLnd : L.Nodup)
    (hmem : ∀ r, r ∈ occS ↔ r ∈ L) :
    occ2.Nodup ∧ (L.erase f).Nodup ∧ (∀ r, r ∈ occ2 ↔ r ∈ L.erase f) := by
  have hnd2 := hperm.nodup_iff.mp hnd
  obtain ⟨hfnot, hnd2c⟩ := List.nodup_cons.mp hnd2
  refine ⟨hnd2c, hLnd.erase f, ?_⟩
  intro r
  rw [hLnd.mem_erase_iff]
  constructor
  · intro hr
    refine ⟨fun he => hfnot (he ▸ hr),
      (hmem r).mp (hperm.mem_iff.mpr (List.mem_cons.mpr (Or.inr hr)))⟩
  · rintro ⟨hne, hrL⟩
    rcases List.mem_cons.mp (hperm.mem_iff.mp ((hmem r).mpr hrL)) with h | h
    · exact absurd h hne
    · exact h

/-- A valid `add` preserves the registry invariant. -/
theorem regInv_add {s : CDevPoll} {L : List Nat} {f : Nat}
    (hinv : RegInv s L) (hf : f ∉ occupants s) :
    RegInv (store_poll_waiter s f).2
      (if (store_poll_waiter s f).1 = PX4_OK then L ++ [f] else L) := by
  obtain ⟨hlen, hnd, hLnd, hmem⟩ := hinv
  have hfL : f ∉ L := fun h => hf ((hmem f).mpr h)
  cases hscan : store_scan f s.pollset with
  | some ps' =>
    have hres : store_poll_waiter s f = (PX4_OK, ⟨s.max_pollwaiters, ps'⟩) := by
      rw [store_poll_waiter, hscan]
    rw [hres]
    rw [if_pos rfl]
    obtain ⟨hnd2, hLnd2, hmem2⟩ :=
      occ_insert_inv (store_scan_perm hscan) hnd hf hLnd hfL hmem
    exact ⟨(store_scan_length hscan).trans hlen, hnd2, hLnd2, hmem2⟩
  | none =>
    by_cases h128 : 128 ≤ s.max_pollwaiters
    · have hres : store_poll_waiter s f = (NEG_ENOMEM, s) := by
        rw [store_poll_waiter, hscan, if_pos h128]
      rw [hres]
      have hne : ¬((NEG_ENOMEM, s).1 = PX4_OK) := by
        simp [NEG_ENOMEM, PX4_OK]
      rw [if_neg hne]
      exact ⟨hlen, hnd, hLnd, hmem⟩
    · have hcaplt : s.max_pollwaiters
          < (if 0 < s.max_pollwaiters then s.max_pollwaiters * 2 else 1) := by
        by_cases hm : 0 < s.max_pollwaiters <;> simp [hm] <;> omega
      have hres : store_poll_waiter s f =
          (PX4_OK,
            ⟨(if 0 < s.max_pollwaiters then s.max_pollwaiters * 2 else 1),
              s.pollset ++ some f :: List.replicate
                ((if 0 < s.max_pollwaiters then s.max_pollwaiters * 2 else 1)
                  - s.max_pollwaiters - 1) none⟩) := by
        rw [store_poll_waiter, hscan, if_neg h128]
        dsimp only
        rw [grow_set_eq f hlen hcaplt]
      rw [hres]
      rw [if_pos rfl]
      have hperm : ((s.pollset ++ some f :: List.replicate
            ((if 0 < s.max_pollwaiters then s.max_pollwaiters * 2 else 1)
              - s.max_pollwaiters - 1) none).filterMap (fun x => x)).Perm
          (f :: occupants s) := by
        rw [List.filterMap_append, filterMap_id_cons_some, filterMap_replicate_none]
        exact List.perm_append_singleton f (occupants s)
      obtain ⟨hnd2, hLnd2, hmem2⟩ := occ_insert_inv hperm hnd hf hLnd hfL hmem
      refine ⟨?_, hnd2, hLnd2, hmem2⟩
      simp only [List.length_append, List.length_cons, List.length_replicate, hlen]
      omega

/-- A `remove` preserves the registry invariant. -/
theorem regInv_remove {s : CDevPoll} {L : List Nat} {f : Nat}
    (hinv : RegInv s L) :
    RegInv (remove_poll_waiter s f).2
      (if (remove_poll_waiter s f).1 = PX4_OK then L.erase f else L) := by
  obtain ⟨hlen, hnd, hLnd, hmem⟩ := hinv
  cases hscan : remove_scan f s.pollset with
  | some ps' =>
    have hres : remove_poll_waiter s f = (PX4_OK, ⟨s.max_pollwaiters, ps'⟩) := by
      rw [remove_poll_waiter, hscan]
    rw [hres]
    rw [if_pos rfl]
    obtain ⟨hnd2, hLnd2, hmem2⟩ :=
      occ_erase_inv (remove_scan_perm hscan) hnd hLnd hmem
    exact ⟨(remove_scan_length hscan).trans hlen, hnd2, hLnd2, hmem2⟩
  | none =>
    have hres : remove_poll_waiter s f = (NEG_EINVAL, s) := by
      rw [remove_poll_waiter, hscan]
    rw [hres]
    have hne : ¬((NEG_EINVAL, s).1 = PX4_OK) := by
      simp [NEG_EINVAL, PX4_OK]
    rw [if_neg hne]
    exact ⟨hlen, hnd, hLnd, hmem⟩

/-- The registry invariant holds after every valid operation sequence. -/
theorem regRun_inv : ∀ (ops : List RegOp) (s : CDevPoll) (L : List Nat),
    RegInv s L → ValidOps s ops → RegInv (regRun s ops) (liveRun s L ops) := by
  intro ops
  induction ops with
  | nil => intro s L hinv _; exact hinv
  | cons op rest ih =>
    intro s L hinv hv
    cases op with
    | addw f =>
      obtain ⟨hf, hv2⟩ := hv
      exact ih _ _ (regInv_add hinv hf) hv2
    | removew f =>
      exact ih _ _ (regInv_remove hinv) hv

/-- Claim C10: after every valid sequence of add/remove operations from
the freshly-constructed registry, every index below the current capacity
is an initialised slot (the table's length equals `_max_pollwaiters`, so
`poll_notify`'s traversal below capacity never reads an uninitialised
cell — growth zero-fills the tail beyond the copied prefix and writes the
new reference at the old-capacity index, the table's only slot in the
0→1 case), and every occupied slot holds exactly a reference stored by a
successful add and not since removed (the occupants coincide with the
ghost live list). -/
theorem registry_invariant (ops : List RegOp)
    (hv : ValidOps initialPoll ops) :
    (regRun initialPoll ops).pollset.length
      = (regRun initialPoll ops).max_pollwaiters ∧
    (∀ r, r ∈ occupants (regRun initialPoll ops)
      ↔ r ∈ liveRun initialPoll [] ops) := by
  have h := regRun_inv ops initialPoll []
    ⟨rfl, List.nodup_nil, List.nodup_nil, by intro r; simp [occupants, initialPoll]⟩ hv
  exact ⟨h.1, h.2.2.2⟩

/-- Witness for C10 on the one-step trace `[add 3]`. -/
theorem registry_invariant_witness :
    (regRun initialPoll [RegOp.addw 3]).pollset.length
      = (regRun initialPoll [RegOp.addw 3]).max_pollwaiters := by
  have hv : ValidOps initialPoll [RegOp.addw 3] := ⟨by decide, trivial⟩
  exact (registry_invariant [RegOp.addw 3] hv).1

end cdev
